import Mathlib

/-!
Verification of the 2048 game engine (src/2048_game.c).

The board is a 4×4 grid of tile ranks (0 = empty, rank r displays 2^r),
embedded as a function `Fin 4 → Fin 4 → Nat`.  Row operations
(`deflate_left`, `combine_left`) work on the row extracted as a 4-element
list, mirroring the C loops; `rotate_clockwise`, the four moves,
`lose_game`, `place_tile` and the playback input loop are translated
directly from the source.
-/

/-- A tile rank; `tile board[NROWS][NCOLS]` with NROWS = NCOLS = 4. -/
abbrev Board : Type := Fin 4 → Fin 4 → Nat

/-- `struct game { int turns, score; tile board[NROWS][NCOLS]; }`. -/
@[ext] structure game where
  turns : Nat
  score : Nat
  board : Board

/-- The row `board[r]` as a list, in column order. -/
def rowOf (b : Board) (r : Fin 4) : List Nat :=
  [b r 0, b r 1, b r 2, b r 3]

/-- One iteration of the `combine_left` loop at column `c`:
`if (row[c] && row[c-1] == row[c]) { row[c-1]++; row[c] = 0;
 score += 1 << (row[c-1] - 1); did_combine = 1; }`. -/
def combineStep (st : List Nat × Nat × Bool) (c : Nat) : List Nat × Nat × Bool :=
  let row := st.1
  let rc := row.getD c 0
  let rp := row.getD (c - 1) 0
  if rc ≠ 0 ∧ rp = rc then
    let row1 := (row.set (c - 1) (rp + 1)).set c 0
    (row1, st.2.1 + 2 ^ (rp + 1 - 1), true)
  else st

/-- `combine_left(game, row)`: the loop `for (c = 1; c < NCOLS; c++)`
over the row, accumulating into the game score and the
`did_combine` flag. Returns (new row, new score, did_combine). -/
def combine_left (row : List Nat) (score : Nat) : List Nat × Nat × Bool :=
  [1, 2, 3].foldl combineStep (row, score, false)

/-- One iteration of the `deflate_left` loop at index `i`, on state
(buf, out, did_deflate): `if (row[in]) { *out++ = row[in];
 did_deflate |= buf[in] != row[in]; }`. -/
def deflateStep (row : List Nat) (st : List Nat × Nat × Bool) (i : Nat) :
    List Nat × Nat × Bool :=
  let ri := row.getD i 0
  if ri ≠ 0 then
    let buf1 := st.1.set st.2.1 ri
    (buf1, st.2.1 + 1, st.2.2 || decide (buf1.getD i 0 ≠ ri))
  else st

/-- `deflate_left(row)`: compacts nonzero entries to the left into a
zero-initialized buffer which is copied back; returns
(new row, did_deflate). -/
def deflate_left (row : List Nat) : List Nat × Bool :=
  let st := [0, 1, 2, 3].foldl (deflateStep row) ([0, 0, 0, 0], 0, false)
  (st.1, st.2.2)

/-- The body of the `move_left` row loop for one row:
`ret |= deflate_left(row); ret |= combine_left(game, row);
 ret |= deflate_left(row);` threading the score.
Returns (new row, new score, ret-contribution of this row). -/
def row_step (row : List Nat) (score : Nat) : List Nat × Nat × Bool :=
  let d1 := deflate_left row
  let cb := combine_left d1.1 score
  let d2 := deflate_left cb.1
  (d2.1, cb.2.1, d1.2 || cb.2.2 || d2.2)

/-- State of the `move_left` loop after processing row 0. -/
def mlP0 (g : game) : List Nat × Nat × Bool :=
  row_step (rowOf g.board 0) g.score

/-- State of the `move_left` loop after processing row 1. -/
def mlP1 (g : game) : List Nat × Nat × Bool :=
  row_step (rowOf g.board 1) (mlP0 g).2.1

/-- State of the `move_left` loop after processing row 2. -/
def mlP2 (g : game) : List Nat × Nat × Bool :=
  row_step (rowOf g.board 2) (mlP1 g).2.1

/-- State of the `move_left` loop after processing row 3. -/
def mlP3 (g : game) : List Nat × Nat × Bool :=
  row_step (rowOf g.board 3) (mlP2 g).2.1

/-- The accumulated `ret` flag of `move_left`. -/
def mlRet (g : game) : Bool :=
  (mlP0 g).2.2 || (mlP1 g).2.2 || (mlP2 g).2.2 || (mlP3 g).2.2

/-- `move_left(game)`: applies `row_step` to each of the four rows in
order (threading the score) and adds `ret` to `turns`. -/
def move_left (g : game) : game :=
  { turns := g.turns + (if mlRet g then 1 else 0)
    score := (mlP3 g).2.1
    board := fun r c =>
      (if r = 0 then (mlP0 g).1 else if r = 1 then (mlP1 g).1 else
       if r = 2 then (mlP2 g).1 else (mlP3 g).1).getD c.val 0 }

/-- The board reindexing of `rotate_clockwise`:
`board[r][c] = buf[NCOLS - c - 1][r]` (`Fin.rev c` is `3 - c`). -/
def rotB (b : Board) : Board :=
  fun r c => b c.rev r

/-- `rotate_clockwise(game)`: replaces the board by its 90° clockwise
rotation (done by value copy of the whole grid). -/
def rotate_clockwise (g : game) : game :=
  { g with board := rotB g.board }

/-- `move_right`: two rotations, `move_left`, two rotations. -/
def move_right (g : game) : game :=
  rotate_clockwise (rotate_clockwise (move_left
    (rotate_clockwise (rotate_clockwise g))))

/-- `move_up`: three rotations, `move_left`, one rotation. -/
def move_up (g : game) : game :=
  rotate_clockwise (move_left
    (rotate_clockwise (rotate_clockwise (rotate_clockwise g))))

/-- `move_down`: one rotation, `move_left`, three rotations. -/
def move_down (g : game) : game :=
  rotate_clockwise (rotate_clockwise (rotate_clockwise
    (move_left (rotate_clockwise g))))

/-- `lose_game(struct game test_game)` (pass by value): applies the four
moves in sequence to the copy and tests whether `turns` is unchanged. -/
def lose_game (g : game) : Bool :=
  let t := move_right (move_down (move_up (move_left g)))
  t.turns == g.turns

/-- The four move directions dispatched by the `main` switch. -/
inductive Dir : Type
  | left
  | right
  | up
  | down

/-- Apply the move corresponding to a direction. -/
def applyMove : Dir → game → game
  | .left => move_left
  | .right => move_right
  | .up => move_up
  | .down => move_down

/-- The board viewed as the "linear board" `tile *lboard`, row-major. -/
def lboardList (b : Board) : List Nat :=
  [b 0 0, b 0 1, b 0 2, b 0 3,
   b 1 0, b 1 1, b 1 2, b 1 3,
   b 2 0, b 2 1, b 2 2, b 2 3,
   b 3 0, b 3 1, b 3 2, b 3 3]

/-- Rebuild a board from a row-major 16-element list. -/
def boardOfList (l : List Nat) : Board :=
  fun r c => l.getD (r.val * 4 + c.val) 0

/-- The `place_tile` insertion walk:
`for (i...) if (!lboard[i] && !(loc--)) { lboard[i] = v; return 0; }`,
i.e. write `v` over the `loc`-th zero of the list (0-indexed). -/
def placeInList : List Nat → Nat → Nat → Option (List Nat)
  | [], _, _ => none
  | x :: xs, v, loc =>
    if x = 0 then
      if loc = 0 then some (v :: xs)
      else (placeInList xs v (loc - 1)).map (fun l => x :: l)
    else (placeInList xs v loc).map (fun l => x :: l)

/-- `place_tile(game)`: counts empty cells; returns -1 (here `none`) when
there are none; otherwise draws `loc = random() % num_zeros` and writes
`random() % 10 ? 1 : 2` over the `loc`-th empty cell in row-major scan
order.  The two RNG draws are passed in as `r1`, `r2`. -/
def place_tile (g : game) (r1 r2 : Nat) : Option game :=
  let lboard := lboardList g.board
  let num_zeros := lboard.count 0
  if num_zeros = 0 then none
  else
    let loc := r1 % num_zeros
    let v : Nat := if r2 % 10 ≠ 0 then 1 else 2
    (placeInList lboard v loc).map (fun l => { g with board := boardOfList l })

/-- `main` calls `place_tile(&game);` discarding the return value: on
failure the game is left unchanged and control simply continues. -/
def place_tile_unchecked (g : game) (r1 r2 : Nat) : game :=
  (place_tile g r1 r2).getD g

/-- `get_input()` in playback mode: an exhausted file yields `'q'`
(`getline` ≤ 0); otherwise the first character of the line past leading
spaces/tabs (`line[strspn(line, " \t")]`; for an all-blank line this is
the terminating NUL). Lines carry their trailing newline characters. -/
def get_input : List (List Char) → Char × List (List Char)
  | [] => ('q', [])
  | line :: rest =>
    ((line.dropWhile (fun ch => ch = ' ' || ch = '\t')).headD (Char.ofNat 0), rest)

/-- The body of the `main` loop after the lose check, in playback mode:
read a key, dispatch the move switch (`'q'` jumps to `end`), and when
`turns` advanced call `place_tile` discarding its result.  Returns the
new game, the remaining playback lines, and whether the session quit. -/
def loopBody (g : game) (lines : List (List Char)) (r1 r2 : Nat) :
    game × List (List Char) × Bool :=
  let last_turn := g.turns
  let inp := get_input lines
  let key := inp.1
  let step : game × Bool :=
    if key = 'a' then (move_left g, false)
    else if key = 's' then (move_down g, false)
    else if key = 'w' then (move_up g, false)
    else if key = 'd' then (move_right g, false)
    else if key = 'q' then (g, true)
    else (g, false)
  let g2 := if last_turn ≠ step.1.turns
    then place_tile_unchecked step.1 r1 r2 else step.1
  (g2, inp.2, step.2)

/-- Modelled from the spec: `combine_row_left` as §4.2 describes it —
scan left-to-right; merge two adjacent equal nonzero ranks into the left
cell (rank + 1), zero the right cell, add `2^(new_rank - 1)` to the
score delta, and continue past the consumed pair.  Returns
(row, score delta, number of merges). -/
def specCombineRowLeft : List Nat → List Nat × Nat × Nat
  | [] => ([], 0, 0)
  | [a] => ([a], 0, 0)
  | a :: b :: rest =>
    if a ≠ 0 ∧ a = b then
      let p := specCombineRowLeft rest
      ((a + 1) :: 0 :: p.1, p.2.1 + 2 ^ (a + 1 - 1), p.2.2 + 1)
    else
      let p := specCombineRowLeft (b :: rest)
      (a :: p.1, p.2.1, p.2.2)
termination_by l => l.length

/-- Index (in scan order) of the `k`-th zero of a list; used to state
where `place_tile` inserts. -/
def nthZeroIndex : List Nat → Nat → Nat
  | [], _ => 0
  | x :: xs, k =>
    if x = 0 then
      if k = 0 then 0 else nthZeroIndex xs (k - 1) + 1
    else nthZeroIndex xs k + 1

/-- The compaction a deflated row must equal: the nonzero entries in
order, padded with zeros to the row width of 4.  Used to characterize
`deflate_left`. -/
def compactRow (l : List Nat) : List Nat :=
  let f := l.filter (fun x => !decide (x = 0))
  f ++ List.replicate (4 - f.length) 0

/-- The scenario game of §8: top row ranks [1,1,2,2], all else empty. -/
def gC1 : game where
  turns := 0
  score := 0
  board := boardOfList [1, 1, 2, 2, 0, 0, 0, 0, 0, 0, 0, 0, 0, 0, 0, 0]

/-- A fully packed board with no equal adjacent pairs: terminal. -/
def gT : game where
  turns := 7
  score := 40
  board := boardOfList [1, 2, 1, 2, 2, 1, 2, 1, 1, 2, 1, 2, 2, 1, 2, 1]

/-- A game whose top row [1,1,0,0] makes every direction effective
enough for witnesses. -/
def gW : game where
  turns := 0
  score := 0
  board := boardOfList [1, 1, 0, 0, 0, 0, 0, 0, 0, 0, 0, 0, 0, 0, 0, 0]

example : combine_left [1, 1, 2, 2] 0 = ([2, 0, 3, 0], 6, true) := by decide

example : deflate_left [0, 1, 0, 2] = ([1, 2, 0, 0], true) := by decide

example : (move_left gC1).score = 6 := by decide

/-! ### Basic rotation lemmas -/

/-- Four clockwise rotations are the identity on games. -/
lemma rotate_clockwise_four (g : game) :
    rotate_clockwise (rotate_clockwise (rotate_clockwise (rotate_clockwise g)))
      = g := by
  cases g with
  | mk t s b =>
    apply game.ext
    · rfl
    · rfl
    · funext r c
      show b r.rev.rev c.rev.rev = b r c
      rw [Fin.rev_rev, Fin.rev_rev]

/-- Rotation touches neither `turns` nor `score`. -/
lemma rotate_clockwise_turns (g : game) :
    (rotate_clockwise g).turns = g.turns := rfl

lemma rotate_clockwise_score (g : game) :
    (rotate_clockwise g).score = g.score := rfl

/-! ### Claim theorems: C1, C9, C10 -/

/-- C1 counterexample: on the board whose top row has ranks [1,1,2,2]
(displayed [2,2,4,4]), `move_left` does NOT increase the score by 12 —
the code credits `1 << (new_rank - 1)` per merge, i.e. 2 + 4 = 6. -/
theorem C1_score_not_twelve : ¬ ((move_left gC1).score = gC1.score + 12) := by
  decide

/-- C1 (amended): the row with ranks [1,1,2,2] under `move_left` becomes
[2,3,0,0] (displayed [4,8,0,0]) and the score increases by exactly 6
(= 2^(2-1) + 2^(3-1), half of each merged tile's displayed value). -/
theorem C1_row_merge_and_score :
    lboardList (move_left gC1).board
        = [2, 3, 0, 0, 0, 0, 0, 0, 0, 0, 0, 0, 0, 0, 0, 0]
      ∧ (move_left gC1).score = gC1.score + 6 :=
  ⟨rfl, rfl⟩

/-- C9: four consecutive `rotate_clockwise` calls restore the game (in
particular the board) exactly. -/
theorem C9_rotation_round_trip (g : game) :
    rotate_clockwise (rotate_clockwise (rotate_clockwise (rotate_clockwise g)))
      = g :=
  rotate_clockwise_four g

/-- C10: `rotate_clockwise` modifies only the board: score and turns are
unchanged, so each rotation-bracketed move has exactly the score and
turns of the `move_left` it wraps. -/
theorem C10_rotate_frame (g : game) :
    (rotate_clockwise g).score = g.score
      ∧ (rotate_clockwise g).turns = g.turns
      ∧ (move_right g).score
          = (move_left (rotate_clockwise (rotate_clockwise g))).score
      ∧ (move_right g).turns
          = (move_left (rotate_clockwise (rotate_clockwise g))).turns
      ∧ (move_up g).score
          = (move_left (rotate_clockwise (rotate_clockwise
              (rotate_clockwise g)))).score
      ∧ (move_up g).turns
          = (move_left (rotate_clockwise (rotate_clockwise
              (rotate_clockwise g)))).turns
      ∧ (move_down g).score = (move_left (rotate_clockwise g)).score
      ∧ (move_down g).turns = (move_left (rotate_clockwise g)).turns := by
  refine ⟨rfl, rfl, ?_, ?_, ?_, ?_, ?_, ?_⟩ <;>
    simp only [move_right, move_up, move_down, rotate_clockwise_score,
      rotate_clockwise_turns]

/-! ### List helpers -/

/-- Destructure a list of length 4 into its entries. -/
lemma list_len4 (l : List Nat) (h : l.length = 4) :
    ∃ a b c d, l = [a, b, c, d] := by
  rcases l with _ | ⟨a, l⟩
  · simp at h
  rcases l with _ | ⟨b, l⟩
  · simp at h
  rcases l with _ | ⟨c, l⟩
  · simp at h
  rcases l with _ | ⟨d, l⟩
  · simp at h
  rcases l with _ | ⟨e, l⟩
  · exact ⟨a, b, c, d, rfl⟩
  · simp at h

/-- Nonzero entries plus zero entries exhaust the length. -/
lemma filter_len_count (l : List Nat) :
    (l.filter (fun x => !decide (x = 0))).length + l.count 0 = l.length := by
  induction l with
  | cons x xs ih =>
    by_cases hx : x = 0 <;> simp [hx, List.count_cons] <;> omega
  | nil => simp

/-- Zeros are not kept by the nonzero filter. -/
lemma filter_count_zero (l : List Nat) :
    (l.filter (fun x => !decide (x = 0))).count 0 = 0 := by
  rw [List.count_eq_zero]
  intro hmem
  simp [List.mem_filter] at hmem

/-- `compactRow` has length 4 on rows of length 4. -/
lemma compactRow_len (l : List Nat) (h : l.length = 4) :
    (compactRow l).length = 4 := by
  have hf := List.length_filter_le (fun x => !decide (x = 0)) l
  simp [compactRow]
  omega

/-- `compactRow` preserves the number of zeros. -/
lemma compactRow_count (l : List Nat) (h : l.length = 4) :
    (compactRow l).count 0 = l.count 0 := by
  have h1 := filter_len_count l
  have h2 := filter_count_zero l
  have hf := List.length_filter_le (fun x => !decide (x = 0)) l
  simp [compactRow, List.count_append, h2, List.count_replicate]
  omega

/-- A row with no zeros is already compact. -/
lemma compactRow_of_no_zero (l : List Nat) (h : l.length = 4)
    (h0 : l.count 0 = 0) : compactRow l = l := by
  have hf : l.filter (fun x => !decide (x = 0)) = l := by
    rw [List.filter_eq_self]
    intro a ha
    simp
    intro hz
    subst hz
    exact absurd (List.count_eq_zero.mp h0) (fun hn => hn ha)
  simp [compactRow, hf, h]

/-- The nonzero filter of a replicated zero block is empty. -/
lemma filter_replicate_zero (n : Nat) :
    (List.replicate n (0 : Nat)).filter (fun x => !decide (x = 0)) = [] := by
  induction n with
  | zero => simp
  | succ n ih => simp [List.replicate_succ, ih]

/-- Compacting twice is the same as compacting once. -/
lemma compactRow_idem (l : List Nat) (h : l.length = 4) :
    compactRow (compactRow l) = compactRow l := by
  have hf : (compactRow l).filter (fun x => !decide (x = 0))
      = l.filter (fun x => !decide (x = 0)) := by
    simp [compactRow, List.filter_append, filter_replicate_zero,
      List.filter_filter]
  simp only [compactRow] at hf ⊢
  rw [hf]

/-! ### Characterization of deflate_left -/

set_option maxHeartbeats 1000000 in
/-- `deflate_left` computes exactly the compaction of the row, and its
`did_deflate` flag is set exactly when the compaction moved something. -/
lemma deflate_left_eq (a b c d : Nat) :
    deflate_left [a, b, c, d]
      = (compactRow [a, b, c, d],
         decide (¬ compactRow [a, b, c, d] = [a, b, c, d])) := by
  by_cases ha : a = 0 <;> by_cases hb : b = 0 <;> by_cases hc : c = 0 <;>
    by_cases hd : d = 0 <;>
    simp [deflate_left, deflateStep, compactRow, eq_comm, ha, hb, hc, hd]

/-- `deflate_left` on any row of length 4. -/
lemma deflate_left_eq4 (l : List Nat) (h : l.length = 4) :
    deflate_left l = (compactRow l, decide (¬ compactRow l = l)) := by
  obtain ⟨a, b, c, d, rfl⟩ := list_len4 l h
  exact deflate_left_eq a b c d

/-! ### Properties of the spec-level combine -/

/-- The spec combine preserves row length. -/
lemma spec_len (l : List Nat) :
    (specCombineRowLeft l).1.length = l.length := by
  induction l using specCombineRowLeft.induct with
  | case1 => simp [specCombineRowLeft]
  | case2 a => simp [specCombineRowLeft]
  | case3 a b rest h ih =>
    obtain ⟨ha, hab⟩ := h
    subst hab
    simp [specCombineRowLeft, ha, ih]
  | case4 a b rest h ih => simp [specCombineRowLeft, h, ih]

/-- Each merge of the spec combine adds exactly one zero to the row. -/
lemma spec_count (l : List Nat) :
    (specCombineRowLeft l).1.count 0
      = l.count 0 + (specCombineRowLeft l).2.2 := by
  induction l using specCombineRowLeft.induct with
  | case1 => simp [specCombineRowLeft]
  | case2 a => simp [specCombineRowLeft]
  | case3 a b rest h ih =>
    obtain ⟨ha, hab⟩ := h
    subst hab
    simp [specCombineRowLeft, ha, ih, List.count_cons]
    omega
  | case4 a b rest h ih =>
    simp [specCombineRowLeft, h, ih, List.count_cons]
    omega

/-- With no merges, the spec combine is the identity on the row. -/
lemma spec_id (l : List Nat) (h0 : (specCombineRowLeft l).2.2 = 0) :
    (specCombineRowLeft l).1 = l := by
  induction l using specCombineRowLeft.induct with
  | case1 => simp [specCombineRowLeft]
  | case2 a => simp [specCombineRowLeft]
  | case3 a b rest h ih =>
    obtain ⟨ha, hab⟩ := h
    subst hab
    simp [specCombineRowLeft, ha] at h0
  | case4 a b rest h ih =>
    simp [specCombineRowLeft, h] at h0 ⊢
    exact ih h0

/-- With no merges, the spec combine adds no score. -/
lemma spec_delta_zero (l : List Nat) (h0 : (specCombineRowLeft l).2.2 = 0) :
    (specCombineRowLeft l).2.1 = 0 := by
  induction l using specCombineRowLeft.induct with
  | case1 => simp [specCombineRowLeft]
  | case2 a => simp [specCombineRowLeft]
  | case3 a b rest h ih =>
    obtain ⟨ha, hab⟩ := h
    subst hab
    simp [specCombineRowLeft, ha] at h0
  | case4 a b rest h ih =>
    simp [specCombineRowLeft, h] at h0 ⊢
    exact ih h0

/-- With at least one merge, the spec combine changes the row. -/
lemma spec_ne (l : List Nat) (h0 : 0 < (specCombineRowLeft l).2.2) :
    (specCombineRowLeft l).1 ≠ l := by
  induction l using specCombineRowLeft.induct with
  | case1 => simp [specCombineRowLeft] at h0
  | case2 a => simp [specCombineRowLeft] at h0
  | case3 a b rest h ih =>
    obtain ⟨ha, hab⟩ := h
    subst hab
    simp [specCombineRowLeft, ha]
  | case4 a b rest h ih =>
    simp [specCombineRowLeft, h] at h0 ⊢
    exact ih h0

/-! ### combine_left agrees with the spec-level scan -/

/-- The C `combine_left` loop computes exactly the spec's left-to-right
merge scan: same row, score increased by the spec's delta, and
`did_combine` set iff at least one merge happened. -/
lemma combine_left_spec (a b c d s : Nat) :
    combine_left [a, b, c, d] s
      = ((specCombineRowLeft [a, b, c, d]).1,
         s + (specCombineRowLeft [a, b, c, d]).2.1,
         decide (0 < (specCombineRowLeft [a, b, c, d]).2.2)) := by
  have hz : ∀ x : Nat, ¬ (x ≠ 0 ∧ (0 : Nat) = x) := fun x h => h.1 h.2.symm
  by_cases h1 : b ≠ 0 ∧ a = b
  · obtain ⟨hb, hab⟩ := h1
    subst hab
    by_cases h3 : d ≠ 0 ∧ c = d
    · obtain ⟨hd, hcd⟩ := h3
      subst hcd
      have hd0 : ¬ ((0 : Nat) = c) := fun h => hd h.symm
      simp [combine_left, combineStep, specCombineRowLeft, hb, hd, hd0, hz]
      ring
    · have hs3 : ¬ (c ≠ 0 ∧ c = d) := fun h => h3 ⟨h.2 ▸ h.1, h.2⟩
      simp [combine_left, combineStep, specCombineRowLeft, hb, hz, h3, hs3]
  · have hs1 : ¬ (a ≠ 0 ∧ a = b) := fun h => h1 ⟨h.2 ▸ h.1, h.2⟩
    by_cases h2 : c ≠ 0 ∧ b = c
    · obtain ⟨hc, hbc⟩ := h2
      subst hbc
      have hab : ¬ a = b := fun h => h1 ⟨hc, h⟩
      simp [combine_left, combineStep, specCombineRowLeft, hab, hc, hz]
    · have hs2 : ¬ (b ≠ 0 ∧ b = c) := fun h => h2 ⟨h.2 ▸ h.1, h.2⟩
      by_cases h3 : d ≠ 0 ∧ c = d
      · obtain ⟨hd, hcd⟩ := h3
        subst hcd
        have hbc : ¬ b = c := fun h => h2 ⟨hd, h⟩
        simp [combine_left, combineStep, specCombineRowLeft, h1, hs1, hbc,
          hd, hz]
      · have hs3 : ¬ (c ≠ 0 ∧ c = d) := fun h => h3 ⟨h.2 ▸ h.1, h.2⟩
        simp [combine_left, combineStep, specCombineRowLeft, h1, hs1, h2, hs2,
          h3, hs3]

/-- `combine_left_spec` for any row of length 4. -/
lemma combine_left_spec4 (l : List Nat) (h : l.length = 4) (s : Nat) :
    combine_left l s
      = ((specCombineRowLeft l).1,
         s + (specCombineRowLeft l).2.1,
         decide (0 < (specCombineRowLeft l).2.2)) := by
  obtain ⟨a, b, c, d, rfl⟩ := list_len4 l h
  exact combine_left_spec a b c d s

/-- C2: `combine_left` performs exactly the spec's left-to-right merge
scan (`specCombineRowLeft`): merging two adjacent equal nonzero ranks
into the left cell with rank + 1 and a zero on the right, adding
`2^(new_rank - 1)` to the score per merge, with each cell in at most one
merge (the scan continues past the consumed pair); `did_combine` is true
iff at least one merge occurred. -/
theorem C2_combine_row_left (a b c d s : Nat) :
    combine_left [a, b, c, d] s
      = ((specCombineRowLeft [a, b, c, d]).1,
         s + (specCombineRowLeft [a, b, c, d]).2.1,
         decide (0 < (specCombineRowLeft [a, b, c, d]).2.2))
      ∧ ((combine_left [a, b, c, d] s).2.2 = true
        ↔ 0 < (specCombineRowLeft [a, b, c, d]).2.2) := by
  refine ⟨combine_left_spec a b c d s, ?_⟩
  rw [combine_left_spec a b c d s]
  simp

/-! ### Characterization of the move_left row pipeline -/

/-- The full deflate–combine–deflate pipeline of one `move_left` row, in
closed form. -/
lemma row_step_eq (l : List Nat) (h : l.length = 4) (s : Nat) :
    row_step l s
      = (compactRow (specCombineRowLeft (compactRow l)).1,
         s + (specCombineRowLeft (compactRow l)).2.1,
         decide (¬ compactRow l = l)
           || decide (0 < (specCombineRowLeft (compactRow l)).2.2)
           || decide (¬ compactRow (specCombineRowLeft (compactRow l)).1
                = (specCombineRowLeft (compactRow l)).1)) := by
  have h1 : (compactRow l).length = 4 := compactRow_len l h
  have h2 : (specCombineRowLeft (compactRow l)).1.length = 4 := by
    rw [spec_len]
    exact h1
  simp only [row_step, deflate_left_eq4 l h]
  simp only [combine_left_spec4 (compactRow l) h1 s]
  simp only [deflate_left_eq4 (specCombineRowLeft (compactRow l)).1 h2]

/-- A row coming out of `row_step` has length 4. -/
lemma row_step_len4 (l : List Nat) (h : l.length = 4) (s : Nat) :
    (row_step l s).1.length = 4 := by
  rw [row_step_eq l h s]
  exact compactRow_len _ (by rw [spec_len]; exact compactRow_len l h)

/-- `row_step` output zeros: the input zeros plus one per merge. -/
lemma row_step_count (l : List Nat) (h : l.length = 4) (s : Nat) :
    (row_step l s).1.count 0
      = l.count 0 + (specCombineRowLeft (compactRow l)).2.2 := by
  have h1 : (compactRow l).length = 4 := compactRow_len l h
  have h2 : (specCombineRowLeft (compactRow l)).1.length = 4 := by
    rw [spec_len]
    exact h1
  rw [row_step_eq l h s]
  show (compactRow (specCombineRowLeft (compactRow l)).1).count 0 = _
  rw [compactRow_count _ h2, spec_count, compactRow_count l h]

/-- The row flag of `row_step` is clear exactly when the row is
unchanged. -/
lemma row_step_flag_false_iff (l : List Nat) (h : l.length = 4) (s : Nat) :
    (row_step l s).2.2 = false ↔ (row_step l s).1 = l := by
  have h1 : (compactRow l).length = 4 := compactRow_len l h
  have h2 : (specCombineRowLeft (compactRow l)).1.length = 4 := by
    rw [spec_len]
    exact h1
  rw [row_step_eq l h s]
  simp only [Bool.or_eq_false_iff, decide_eq_false_iff_not, not_not,
    Nat.not_lt, Nat.le_zero]
  constructor
  · rintro ⟨⟨hL, hm⟩, hR⟩
    have hS : (specCombineRowLeft (compactRow l)).1 = compactRow l :=
      spec_id _ hm
    rw [hS] at hR ⊢
    rw [hR, hL]
  · intro hR
    have hcnt : (compactRow (specCombineRowLeft (compactRow l)).1).count 0
        = l.count 0 + (specCombineRowLeft (compactRow l)).2.2 := by
      rw [compactRow_count _ h2, spec_count, compactRow_count l h]
    have hm : (specCombineRowLeft (compactRow l)).2.2 = 0 := by
      rw [hR] at hcnt
      omega
    have hS : (specCombineRowLeft (compactRow l)).1 = compactRow l :=
      spec_id _ hm
    have hLl : compactRow l = l := by
      calc compactRow l = compactRow (compactRow l) :=
            (compactRow_idem l h).symm
        _ = compactRow (specCombineRowLeft (compactRow l)).1 := by rw [hS]
        _ = l := hR
    refine ⟨⟨hLl, hm⟩, ?_⟩
    rw [hS]
    exact compactRow_idem l h

/-- A set row flag forces at least one empty cell in the output row. -/
lemma row_step_zero_of_flag (l : List Nat) (h : l.length = 4) (s : Nat)
    (hf : (row_step l s).2.2 = true) : 0 < (row_step l s).1.count 0 := by
  have h1 : (compactRow l).length = 4 := compactRow_len l h
  have h2 : (specCombineRowLeft (compactRow l)).1.length = 4 := by
    rw [spec_len]
    exact h1
  rw [row_step_count l h s]
  rw [row_step_eq l h s] at hf
  simp only [Bool.or_eq_true, decide_eq_true_eq] at hf
  rcases hf with (hL | hm) | hR
  · have hpos : 0 < l.count 0 := by
      rcases Nat.eq_zero_or_pos (l.count 0) with h0 | h0
      · exact absurd (compactRow_of_no_zero l h h0) hL
      · exact h0
    omega
  · omega
  · have hpos : 0 < (specCombineRowLeft (compactRow l)).1.count 0 := by
      rcases Nat.eq_zero_or_pos ((specCombineRowLeft (compactRow l)).1.count 0)
        with h0 | h0
      · exact absurd (compactRow_of_no_zero _ h2 h0) hR
      · exact h0
    rw [spec_count, compactRow_count l h] at hpos
    omega

/-- A clear row flag means the row contributed nothing to the score. -/
lemma row_step_score_of_flag (l : List Nat) (h : l.length = 4) (s : Nat)
    (hf : (row_step l s).2.2 = false) : (row_step l s).2.1 = s := by
  rw [row_step_eq l h s] at hf ⊢
  simp only [Bool.or_eq_false_iff, decide_eq_false_iff_not, not_not,
    Nat.not_lt, Nat.le_zero] at hf
  show s + (specCombineRowLeft (compactRow l)).2.1 = s
  rw [spec_delta_zero _ hf.1.2]
  rfl

/-! ### Board-level lemmas for move_left -/

/-- Rows extracted from a board have length 4. -/
lemma rowOf_len (b : Board) (r : Fin 4) : (rowOf b r).length = 4 := rfl

/-- Reading a board row list back at a column index. -/
lemma rowOf_getD (b : Board) (r : Fin 4) (c : Fin 4) :
    (rowOf b r).getD c.val 0 = b r c := by
  fin_cases c <;> rfl

/-- Two length-4 lists agreeing at all four positions are equal. -/
lemma list4_getD_ext (l1 l2 : List Nat) (h1 : l1.length = 4)
    (h2 : l2.length = 4)
    (h : ∀ c : Fin 4, l1.getD c.val 0 = l2.getD c.val 0) : l1 = l2 := by
  obtain ⟨a, b, c, d, rfl⟩ := list_len4 l1 h1
  obtain ⟨a2, b2, c2, d2, rfl⟩ := list_len4 l2 h2
  have e0 := h ⟨0, by omega⟩
  have e1 := h ⟨1, by omega⟩
  have e2 := h ⟨2, by omega⟩
  have e3 := h ⟨3, by omega⟩
  simp [List.getD] at e0 e1 e2 e3
  simp [e0, e1, e2, e3]

/-- The `move_left` board is unchanged iff every row came out equal. -/
lemma move_left_board_iff (g : game) :
    (move_left g).board = g.board
      ↔ ((mlP0 g).1 = rowOf g.board 0 ∧ (mlP1 g).1 = rowOf g.board 1
         ∧ (mlP2 g).1 = rowOf g.board 2 ∧ (mlP3 g).1 = rowOf g.board 3) := by
  constructor
  · intro hb
    refine ⟨?_, ?_, ?_, ?_⟩ <;>
      [apply list4_getD_ext _ _ (row_step_len4 _ (rowOf_len g.board 0) _)
        (rowOf_len g.board 0);
       apply list4_getD_ext _ _ (row_step_len4 _ (rowOf_len g.board 1) _)
        (rowOf_len g.board 1);
       apply list4_getD_ext _ _ (row_step_len4 _ (rowOf_len g.board 2) _)
        (rowOf_len g.board 2);
       apply list4_getD_ext _ _ (row_step_len4 _ (rowOf_len g.board 3) _)
        (rowOf_len g.board 3)] <;>
      intro c
    · rw [rowOf_getD]
      have := congrFun (congrFun hb 0) c
      simpa [move_left] using this
    · rw [rowOf_getD]
      have := congrFun (congrFun hb 1) c
      simpa [move_left] using this
    · rw [rowOf_getD]
      have := congrFun (congrFun hb 2) c
      simpa [move_left] using this
    · rw [rowOf_getD]
      have := congrFun (congrFun hb 3) c
      simpa [move_left] using this
  · rintro ⟨e0, e1, e2, e3⟩
    funext r c
    fin_cases r <;> fin_cases c <;>
      simp [move_left, e0, e1, e2, e3, rowOf] <;> rfl

/-- Projection of `move_left` at `turns`. -/
lemma move_left_turns_def (g : game) :
    (move_left g).turns = g.turns + (if mlRet g then 1 else 0) := rfl

/-- Projection of `move_left` at `score`. -/
lemma move_left_score_def (g : game) :
    (move_left g).score = (mlP3 g).2.1 := rfl

/-- The `ret` flag of `move_left` is clear iff the board is unchanged. -/
lemma mlRet_false_iff (g : game) :
    mlRet g = false ↔ (move_left g).board = g.board := by
  rw [move_left_board_iff]
  simp only [mlRet, mlP0, mlP1, mlP2, mlP3, Bool.or_eq_false_iff]
  rw [row_step_flag_false_iff _ (rowOf_len g.board 0) _,
    row_step_flag_false_iff _ (rowOf_len g.board 1) _,
    row_step_flag_false_iff _ (rowOf_len g.board 2) _,
    row_step_flag_false_iff _ (rowOf_len g.board 3) _]
  exact ⟨fun h => ⟨h.1.1.1, h.1.1.2, h.1.2, h.2⟩,
    fun h => ⟨⟨⟨h.1, h.2.1⟩, h.2.2.1⟩, h.2.2.2⟩⟩

/-- An ineffective `move_left` leaves the score unchanged. -/
lemma move_left_score_fix (g : game) (hr : mlRet g = false) :
    (move_left g).score = g.score := by
  simp only [mlRet, Bool.or_eq_false_iff] at hr
  obtain ⟨⟨⟨f0, f1⟩, f2⟩, f3⟩ := hr
  have s0 : (mlP0 g).2.1 = g.score :=
    row_step_score_of_flag _ (rowOf_len g.board 0) _ f0
  have s1 : (mlP1 g).2.1 = (mlP0 g).2.1 :=
    row_step_score_of_flag _ (rowOf_len g.board 1) _ f1
  have s2 : (mlP2 g).2.1 = (mlP1 g).2.1 :=
    row_step_score_of_flag _ (rowOf_len g.board 2) _ f2
  have s3 : (mlP3 g).2.1 = (mlP2 g).2.1 :=
    row_step_score_of_flag _ (rowOf_len g.board 3) _ f3
  rw [move_left_score_def, s3, s2, s1, s0]

/-- `move_left` increments turns exactly when the board changes. -/
lemma move_left_turns_ite (g : game) :
    (move_left g).turns
      = g.turns + (if (move_left g).board = g.board then 0 else 1) := by
  rw [move_left_turns_def]
  by_cases hr : mlRet g = false
  · rw [hr, if_pos ((mlRet_false_iff g).mp hr)]
    simp
  · have hb : ¬ ((move_left g).board = g.board) :=
      fun hb => hr ((mlRet_false_iff g).mpr hb)
    simp only [Bool.not_eq_false] at hr
    rw [hr, if_neg hb]
    simp

/-- An ineffective `move_left` is the identity. -/
lemma move_left_fix (g : game) (ht : (move_left g).turns = g.turns) :
    move_left g = g := by
  have hr : mlRet g = false := by
    by_contra hr
    simp only [Bool.not_eq_false] at hr
    have h1 : (move_left g).turns = g.turns + 1 := by
      rw [move_left_turns_def, hr]
      simp
    omega
  apply game.ext
  · rw [move_left_turns_def, hr]
    simp
  · exact move_left_score_fix g hr
  · exact (mlRet_false_iff g).mp hr

/-! ### Rotation algebra -/

/-- Four quarter rotations of a board are the identity. -/
lemma rotB_four (b : Board) : rotB (rotB (rotB (rotB b))) = b := by
  funext r c
  show b r.rev.rev c.rev.rev = b r c
  rw [Fin.rev_rev, Fin.rev_rev]

/-- Undo one rotation with three more. -/
lemma rotB_eq_iff (x y : Board) :
    rotB x = y ↔ x = rotB (rotB (rotB y)) := by
  constructor
  · intro h
    rw [← h]
    exact (rotB_four x).symm
  · intro h
    rw [h]
    exact rotB_four y

/-- Undo two rotations with two more. -/
lemma rotB2_eq_iff (x y : Board) :
    rotB (rotB x) = y ↔ x = rotB (rotB y) := by
  constructor
  · intro h
    rw [← h]
    exact (rotB_four x).symm
  · intro h
    rw [h]
    exact rotB_four y

/-- Undo three rotations with one more. -/
lemma rotB3_eq_iff (x y : Board) :
    rotB (rotB (rotB x)) = y ↔ x = rotB y := by
  constructor
  · intro h
    rw [← h]
    exact (rotB_four x).symm
  · intro h
    rw [h]
    exact rotB_four y

/-! ### Per-direction move properties -/

/-- Board of a doubly rotated game. -/
lemma rot2_board (g : game) :
    (rotate_clockwise (rotate_clockwise g)).board = rotB (rotB g.board) := rfl

/-- Every directional move adds 1 to `turns` exactly when it changes the
board. -/
lemma applyMove_turns_ite (d : Dir) (g : game) :
    (applyMove d g).turns
      = g.turns + (if (applyMove d g).board = g.board then 0 else 1) := by
  cases d with
  | left => exact move_left_turns_ite g
  | right =>
    have hiff : ((applyMove Dir.right g).board = g.board)
        ↔ ((move_left (rotate_clockwise (rotate_clockwise g))).board
           = (rotate_clockwise (rotate_clockwise g)).board) := by
      show (rotB (rotB ((move_left
          (rotate_clockwise (rotate_clockwise g))).board)) = g.board) ↔ _
      rw [rotB2_eq_iff]
      rfl
    simp only [hiff]
    show (move_left (rotate_clockwise (rotate_clockwise g))).turns = _
    rw [move_left_turns_ite]
    rfl
  | up =>
    have hiff : ((applyMove Dir.up g).board = g.board)
        ↔ ((move_left (rotate_clockwise (rotate_clockwise
            (rotate_clockwise g)))).board
           = (rotate_clockwise (rotate_clockwise
              (rotate_clockwise g))).board) := by
      show (rotB ((move_left (rotate_clockwise (rotate_clockwise
          (rotate_clockwise g)))).board) = g.board) ↔ _
      rw [rotB_eq_iff]
      rfl
    simp only [hiff]
    show (move_left (rotate_clockwise (rotate_clockwise
        (rotate_clockwise g)))).turns = _
    rw [move_left_turns_ite]
    rfl
  | down =>
    have hiff : ((applyMove Dir.down g).board = g.board)
        ↔ ((move_left (rotate_clockwise g)).board
           = (rotate_clockwise g).board) := by
      show (rotB (rotB (rotB ((move_left
          (rotate_clockwise g)).board))) = g.board) ↔ _
      rw [rotB3_eq_iff]
      rfl
    simp only [hiff]
    show (move_left (rotate_clockwise g)).turns = _
    rw [move_left_turns_ite]
    rfl

/-- Turns either stay or increase by one under any move. -/
lemma applyMove_turns_cases (d : Dir) (g : game) :
    (applyMove d g).turns = g.turns
      ∨ (applyMove d g).turns = g.turns + 1 := by
  rw [applyMove_turns_ite]
  by_cases h : (applyMove d g).board = g.board
  · left
    simp [h]
  · right
    simp [h]

/-- A move that does not advance `turns` is the identity on the game. -/
lemma applyMove_fix (d : Dir) (g : game)
    (ht : (applyMove d g).turns = g.turns) : applyMove d g = g := by
  cases d with
  | left => exact move_left_fix g ht
  | right =>
    have h1 : move_left (rotate_clockwise (rotate_clockwise g))
        = rotate_clockwise (rotate_clockwise g) :=
      move_left_fix (rotate_clockwise (rotate_clockwise g)) ht
    show rotate_clockwise (rotate_clockwise (move_left
        (rotate_clockwise (rotate_clockwise g)))) = g
    rw [h1]
    exact rotate_clockwise_four g
  | up =>
    have h1 : move_left (rotate_clockwise (rotate_clockwise
        (rotate_clockwise g)))
        = rotate_clockwise (rotate_clockwise (rotate_clockwise g)) :=
      move_left_fix _ ht
    show rotate_clockwise (move_left (rotate_clockwise (rotate_clockwise
        (rotate_clockwise g)))) = g
    rw [h1]
    exact rotate_clockwise_four g
  | down =>
    have h1 : move_left (rotate_clockwise g) = rotate_clockwise g :=
      move_left_fix _ ht
    show rotate_clockwise (rotate_clockwise (rotate_clockwise (move_left
        (rotate_clockwise g)))) = g
    rw [h1]
    exact rotate_clockwise_four g

/-- C3: every directional move adds exactly 1 to the turns counter when
it changes the board and exactly 0 when it leaves the board unchanged. -/
theorem C3_effective_move_gating (g : game) (d : Dir) :
    (applyMove d g).turns
      = g.turns + (if (applyMove d g).board = g.board then 0 else 1) :=
  applyMove_turns_ite d g

/-- C4: if `lose_game` (the terminal check) returns true, then each of
the four moves applied to an independent copy leaves the turns counter
unchanged. -/
theorem C4_terminal_soundness (g : game) (h : lose_game g = true) :
    (move_left g).turns = g.turns ∧ (move_up g).turns = g.turns
      ∧ (move_down g).turns = g.turns ∧ (move_right g).turns = g.turns := by
  have ht : (move_right (move_down (move_up (move_left g)))).turns
      = g.turns := by
    simpa [lose_game] using h
  have c1 := applyMove_turns_cases Dir.left g
  have c2 := applyMove_turns_cases Dir.up (move_left g)
  have c3 := applyMove_turns_cases Dir.down (move_up (move_left g))
  have c4 := applyMove_turns_cases Dir.right (move_down (move_up (move_left g)))
  simp only [applyMove] at c1 c2 c3 c4
  have e1 : (move_left g).turns = g.turns := by omega
  have hml : move_left g = g := applyMove_fix Dir.left g e1
  rw [hml] at c2 c3 c4 ht
  have e2 : (move_up g).turns = g.turns := by omega
  have hmu : move_up g = g := applyMove_fix Dir.up g e2
  rw [hmu] at c3 c4 ht
  have e3 : (move_down g).turns = g.turns := by omega
  have hmd : move_down g = g := applyMove_fix Dir.down g e3
  rw [hmd] at c4 ht
  have e4 : (move_right g).turns = g.turns := by omega
  exact ⟨e1, e2, e3, e4⟩

/-- Witness for C4 on a concrete packed terminal board. -/
theorem C4_terminal_soundness_witness :
    lose_game gT = true
      ∧ ((move_left gT).turns = gT.turns ∧ (move_up gT).turns = gT.turns
        ∧ (move_down gT).turns = gT.turns
        ∧ (move_right gT).turns = gT.turns) :=
  ⟨by decide, C4_terminal_soundness gT (by decide)⟩

/-! ### Effective moves leave an empty cell -/

/-- A length-4 list with a positive zero count has a zero at some
column. -/
lemma count_pos_exists (l : List Nat) (h : l.length = 4)
    (hc : 0 < l.count 0) : ∃ c : Fin 4, l.getD c.val 0 = 0 := by
  obtain ⟨a, b, c, d, rfl⟩ := list_len4 l h
  by_cases ha : a = 0
  · exact ⟨⟨0, by omega⟩, by simpa using ha⟩
  by_cases hb : b = 0
  · exact ⟨⟨1, by omega⟩, by simpa using hb⟩
  by_cases hcc : c = 0
  · exact ⟨⟨2, by omega⟩, by simpa using hcc⟩
  by_cases hd : d = 0
  · exact ⟨⟨3, by omega⟩, by simpa using hd⟩
  · simp [List.count_cons, ha, hb, hcc, hd] at hc

/-- Board row 0 of `move_left`. -/
lemma move_left_board_row0 (g : game) (c : Fin 4) :
    (move_left g).board 0 c = (mlP0 g).1.getD c.val 0 := by
  simp [move_left]

/-- Board row 1 of `move_left`. -/
lemma move_left_board_row1 (g : game) (c : Fin 4) :
    (move_left g).board 1 c = (mlP1 g).1.getD c.val 0 := by
  simp [move_left]

/-- Board row 2 of `move_left`. -/
lemma move_left_board_row2 (g : game) (c : Fin 4) :
    (move_left g).board 2 c = (mlP2 g).1.getD c.val 0 := by
  simp [move_left]

/-- Board row 3 of `move_left`. -/
lemma move_left_board_row3 (g : game) (c : Fin 4) :
    (move_left g).board 3 c = (mlP3 g).1.getD c.val 0 := by
  simp [move_left]

/-- An effective `move_left` leaves at least one empty cell. -/
lemma move_left_effective_zero (g : game)
    (h : (move_left g).turns ≠ g.turns) :
    ∃ r c, (move_left g).board r c = 0 := by
  have hr : mlRet g = true := by
    by_contra hb
    simp only [Bool.not_eq_true] at hb
    apply h
    rw [move_left_turns_def, hb]
    simp
  simp only [mlRet, Bool.or_eq_true] at hr
  rcases hr with ((h0 | h1) | h2) | h3
  · obtain ⟨c, hc⟩ := count_pos_exists _
      (row_step_len4 _ (rowOf_len g.board 0) _)
      (row_step_zero_of_flag _ (rowOf_len g.board 0) _ h0)
    exact ⟨0, c, by rw [move_left_board_row0]; exact hc⟩
  · obtain ⟨c, hc⟩ := count_pos_exists _
      (row_step_len4 _ (rowOf_len g.board 1) _)
      (row_step_zero_of_flag _ (rowOf_len g.board 1) _ h1)
    exact ⟨1, c, by rw [move_left_board_row1]; exact hc⟩
  · obtain ⟨c, hc⟩ := count_pos_exists _
      (row_step_len4 _ (rowOf_len g.board 2) _)
      (row_step_zero_of_flag _ (rowOf_len g.board 2) _ h2)
    exact ⟨2, c, by rw [move_left_board_row2]; exact hc⟩
  · obtain ⟨c, hc⟩ := count_pos_exists _
      (row_step_len4 _ (rowOf_len g.board 3) _)
      (row_step_zero_of_flag _ (rowOf_len g.board 3) _ h3)
    exact ⟨3, c, by rw [move_left_board_row3]; exact hc⟩

/-- Rotation preserves having an empty cell. -/
lemma rotB_zero_iff (b : Board) :
    (∃ r c, rotB b r c = 0) ↔ (∃ r c, b r c = 0) := by
  constructor
  · rintro ⟨r, c, h⟩
    exact ⟨c.rev, r, h⟩
  · rintro ⟨x, y, h⟩
    refine ⟨y, x.rev, ?_⟩
    show b x.rev.rev y = 0
    rw [Fin.rev_rev]
    exact h

/-- Every effective move leaves at least one empty cell. -/
lemma applyMove_effective_zero (d : Dir) (g : game)
    (h : (applyMove d g).turns ≠ g.turns) :
    ∃ r c, (applyMove d g).board r c = 0 := by
  cases d with
  | left => exact move_left_effective_zero g h
  | right =>
    have h1 : (move_left (rotate_clockwise (rotate_clockwise g))).turns
        ≠ (rotate_clockwise (rotate_clockwise g)).turns := h
    have h2 := move_left_effective_zero _ h1
    show ∃ r c, rotB (rotB ((move_left
        (rotate_clockwise (rotate_clockwise g))).board)) r c = 0
    rw [rotB_zero_iff, rotB_zero_iff]
    exact h2
  | up =>
    have h1 : (move_left (rotate_clockwise (rotate_clockwise
        (rotate_clockwise g)))).turns
        ≠ (rotate_clockwise (rotate_clockwise
            (rotate_clockwise g))).turns := h
    have h2 := move_left_effective_zero _ h1
    show ∃ r c, rotB ((move_left (rotate_clockwise (rotate_clockwise
        (rotate_clockwise g)))).board) r c = 0
    rw [rotB_zero_iff]
    exact h2
  | down =>
    have h1 : (move_left (rotate_clockwise g)).turns
        ≠ (rotate_clockwise g).turns := h
    have h2 := move_left_effective_zero _ h1
    show ∃ r c, rotB (rotB (rotB ((move_left
        (rotate_clockwise g)).board))) r c = 0
    rw [rotB_zero_iff, rotB_zero_iff, rotB_zero_iff]
    exact h2

/-- Every cell value occurs in the linear scan of the board. -/
lemma cell_mem_lboard (b : Board) (r c : Fin 4) :
    b r c ∈ lboardList b := by
  have hidx : r.val * 4 + c.val < (lboardList b).length := by
    have hr := r.isLt
    have hc := c.isLt
    show r.val * 4 + c.val < 16
    omega
  have h1 : (lboardList b).getD (r.val * 4 + c.val) 0 = b r c := by
    fin_cases r <;> fin_cases c <;> rfl
  rw [← h1, List.getD_eq_getElem _ _ hidx]
  exact List.getElem_mem hidx

/-- A board with an empty cell has a zero in its linear scan. -/
lemma exists_zero_count (b : Board) (h : ∃ r c, b r c = 0) :
    0 < (lboardList b).count 0 := by
  obtain ⟨r, c, h⟩ := h
  rw [List.count_pos_iff]
  rw [← h]
  exact cell_mem_lboard b r c

/-! ### place_tile walk -/

/-- The insertion walk writes `v` over the `loc`-th zero when one
exists. -/
lemma placeInList_eq (l : List Nat) :
    ∀ v k, k < l.count 0
      → placeInList l v k = some (l.set (nthZeroIndex l k) v) := by
  induction l with
  | nil => intro v k hk; simp at hk
  | cons x xs ih =>
    intro v k hk
    by_cases hx : x = 0
    · subst hx
      by_cases hk0 : k = 0
      · subst hk0
        simp [placeInList, nthZeroIndex]
      · have hk1 : k - 1 < xs.count 0 := by
          simp [List.count_cons] at hk
          omega
        simp only [placeInList, nthZeroIndex, if_pos rfl, if_neg hk0,
          ih v (k - 1) hk1, Option.map_some]
        rfl
    · have hk1 : k < xs.count 0 := by
        simp [List.count_cons, hx] at hk
        exact hk
      simp only [placeInList, nthZeroIndex, if_neg hx, ih v k hk1,
        Option.map_some]
      rfl

/-- The `loc`-th zero really is a zero. -/
lemma nthZeroIndex_getD (l : List Nat) :
    ∀ k, k < l.count 0 → l.getD (nthZeroIndex l k) 0 = 0 := by
  induction l with
  | nil => intro k hk; simp at hk
  | cons x xs ih =>
    intro k hk
    by_cases hx : x = 0
    · subst hx
      by_cases hk0 : k = 0
      · subst hk0
        simp [nthZeroIndex]
      · have hk1 : k - 1 < xs.count 0 := by
          simp [List.count_cons] at hk
          omega
        simp only [nthZeroIndex, if_pos rfl, if_neg hk0]
        simpa using ih (k - 1) hk1
    · have hk1 : k < xs.count 0 := by
        simp [List.count_cons, hx] at hk
        exact hk
      simp only [nthZeroIndex, if_neg hx]
      simpa using ih k hk1

/-- `List.set` at `i` leaves index `j ≠ i` unchanged. -/
lemma set_getD_ne (l : List Nat) (i j v : Nat) (h : i ≠ j) :
    (l.set i v).getD j 0 = l.getD j 0 := by
  simp [List.getD, List.getElem?_set_ne h]

/-- C5: an effective move always leaves at least one empty cell on the
board, so the `place_tile` call after an effective move can never fail
with NoSpaceError. -/
theorem C5_effective_move_leaves_space (g : game) (d : Dir)
    (h : (applyMove d g).turns ≠ g.turns) :
    (∃ r c, (applyMove d g).board r c = 0)
      ∧ 0 < (lboardList (applyMove d g).board).count 0
      ∧ ∀ r1 r2, place_tile (applyMove d g) r1 r2 ≠ none := by
  have hz := applyMove_effective_zero d g h
  have hcnt := exists_zero_count _ hz
  refine ⟨hz, hcnt, ?_⟩
  intro r1 r2 hnone
  rw [place_tile] at hnone
  rw [if_neg (by omega)] at hnone
  simp only [Option.map_eq_none'] at hnone
  rw [placeInList_eq _ _ _ (Nat.mod_lt r1 hcnt)] at hnone
  exact Option.noConfusion hnone

/-- Witness for C5: moving the row [1,1,0,0] left is effective and the
conclusion holds there. -/
theorem C5_effective_move_leaves_space_witness :
    (applyMove Dir.left gW).turns ≠ gW.turns
      ∧ ((∃ r c, (applyMove Dir.left gW).board r c = 0)
        ∧ 0 < (lboardList (applyMove Dir.left gW).board).count 0
        ∧ ∀ r1 r2, place_tile (applyMove Dir.left gW) r1 r2 ≠ none) :=
  ⟨by decide, C5_effective_move_leaves_space gW Dir.left (by decide)⟩

/-! ### Claim theorems: C6 -/

/-- C6: `place_tile` fails (returns `none`, the C -1) iff the board has
no empty cell, leaving the game untouched; otherwise it succeeds,
writing rank 1 on the 9/10 RNG branch and rank 2 on the 1/10 branch over
the `loc`-th empty cell in row-major scan order (`loc` drawn modulo the
empty-cell count), keeping score and turns and every other cell
unchanged. -/
theorem C6_spawn_tile (g : game) (r1 r2 : Nat) :
    (place_tile g r1 r2 = none ↔ (lboardList g.board).count 0 = 0)
      ∧ ((lboardList g.board).count 0 ≠ 0 →
          place_tile g r1 r2
              = some { g with board := boardOfList ((lboardList g.board).set
                  (nthZeroIndex (lboardList g.board)
                    (r1 % (lboardList g.board).count 0))
                  (if r2 % 10 ≠ 0 then 1 else 2)) }
            ∧ (lboardList g.board).getD
                (nthZeroIndex (lboardList g.board)
                  (r1 % (lboardList g.board).count 0)) 0 = 0
            ∧ ∀ j, j ≠ nthZeroIndex (lboardList g.board)
                  (r1 % (lboardList g.board).count 0) →
                ((lboardList g.board).set
                    (nthZeroIndex (lboardList g.board)
                      (r1 % (lboardList g.board).count 0))
                    (if r2 % 10 ≠ 0 then 1 else 2)).getD j 0
                  = (lboardList g.board).getD j 0) := by
  have hsucc : (lboardList g.board).count 0 ≠ 0 →
      place_tile g r1 r2
        = some { g with board := boardOfList ((lboardList g.board).set
            (nthZeroIndex (lboardList g.board)
              (r1 % (lboardList g.board).count 0))
            (if r2 % 10 ≠ 0 then 1 else 2)) } := by
    intro hn
    rw [place_tile, if_neg hn]
    simp only [placeInList_eq _ _ _
      (Nat.mod_lt r1 (Nat.pos_of_ne_zero hn))]
    rfl
  constructor
  · constructor
    · intro hnone
      by_contra hn
      rw [hsucc hn] at hnone
      exact Option.noConfusion hnone
    · intro hn
      rw [place_tile, if_pos hn]
  · intro hn
    refine ⟨hsucc hn, ?_, ?_⟩
    · exact nthZeroIndex_getD _ _ (Nat.mod_lt r1 (Nat.pos_of_ne_zero hn))
    · intro j hj
      exact set_getD_ne _ _ _ _ (fun e => hj e.symm)

/-- Witness for C6 on the board [1,1,0,0,…]: the spawn succeeds and
writes rank 2 (RNG draw 0 on the 1/10 branch) over the first empty cell,
index 2 of the scan. -/
theorem C6_spawn_tile_witness :
    (lboardList gW.board).count 0 ≠ 0
      ∧ (place_tile gW 0 0
            = some { gW with board := boardOfList ((lboardList gW.board).set
                (nthZeroIndex (lboardList gW.board)
                  (0 % (lboardList gW.board).count 0))
                (if 0 % 10 ≠ 0 then 1 else 2)) }
          ∧ (lboardList gW.board).getD
              (nthZeroIndex (lboardList gW.board)
                (0 % (lboardList gW.board).count 0)) 0 = 0
          ∧ ∀ j, j ≠ nthZeroIndex (lboardList gW.board)
                (0 % (lboardList gW.board).count 0) →
              ((lboardList gW.board).set
                  (nthZeroIndex (lboardList gW.board)
                    (0 % (lboardList gW.board).count 0))
                  (if 0 % 10 ≠ 0 then 1 else 2)).getD j 0
                = (lboardList gW.board).getD j 0) :=
  ⟨by decide, (C6_spawn_tile gW 0 0).2 (by decide)⟩

/-! ### Claim theorems: C7 and C8 -/

/-- C7 counterexample: in playback mode a blank line does NOT transition
the session to Quit — the key read is the newline character, which
matches no switch case, so the state is unchanged and the loop simply
continues with the next line. -/
theorem C7_blank_line_does_not_quit :
    (loopBody gW [[' ', '\n']] 0 0).2.2 = false
      ∧ (loopBody gW [[' ', '\n']] 0 0).1 = gW
      ∧ (get_input [[' ', '\n']]).1 ≠ 'q' :=
  ⟨rfl, rfl, by decide⟩

/-- C7 (amended): a blank or unrecognized playback line quits nothing:
the key matches no switch case, the game is unchanged, and the loop
continues with the remaining lines; only an exhausted playback source
yields the key `'q'`, on which the loop body reports Quit with the state
unchanged. -/
theorem C7_unrecognized_continues_exhausted_quits :
    (∀ (g : game) (lines : List (List Char)) (r1 r2 : Nat),
        (get_input lines).1 ≠ 'a' → (get_input lines).1 ≠ 's'
          → (get_input lines).1 ≠ 'w' → (get_input lines).1 ≠ 'd'
          → (get_input lines).1 ≠ 'q'
          → loopBody g lines r1 r2 = (g, (get_input lines).2, false))
      ∧ (get_input [] = ('q', []))
      ∧ (∀ (g : game) (r1 r2 : Nat), loopBody g [] r1 r2 = (g, [], true)) := by
  refine ⟨?_, rfl, ?_⟩
  · intro g lines r1 r2 ha hs hw hd hq
    rw [loopBody]
    simp only [if_neg ha, if_neg hs, if_neg hw, if_neg hd, if_neg hq]
    simp
  · intro g r1 r2
    rw [loopBody]
    simp [get_input]

/-- Witness for C7 (amended): the blank line [' ', '\n'] reads as the
newline key, which is unrecognized, so the loop continues unchanged. -/
theorem C7_unrecognized_continues_witness :
    loopBody gW [[' ', '\n']] 5 7 = (gW, [], false) :=
  C7_unrecognized_continues_exhausted_quits.1 gW [[' ', '\n']] 5 7
    (by decide) (by decide) (by decide) (by decide) (by decide)

/-- C8 counterexample: on a full board `place_tile` fails, and the
session controller, which discards the return value
(`place_tile(&game);`), continues with the game unchanged — the failure
is silently ignored, not surfaced by an abort or assert. -/
theorem C8_failure_silently_ignored :
    place_tile gT 0 0 = none ∧ place_tile_unchecked gT 0 0 = gT :=
  ⟨rfl, rfl⟩

/-- C8 (amended): `main` ignores the result of `place_tile`; whenever
the spawn fails with NoSpaceError, the session continues with the game
state unchanged, exactly as if nothing had happened. -/
theorem C8_failure_leaves_state_and_continues (g : game) (r1 r2 : Nat)
    (h : place_tile g r1 r2 = none) : place_tile_unchecked g r1 r2 = g := by
  rw [place_tile_unchecked, h]
  rfl

/-- Witness for C8 (amended) on the full board `gT`. -/
theorem C8_failure_leaves_state_witness :
    place_tile gT 1 1 = none ∧ place_tile_unchecked gT 1 1 = gT :=
  ⟨rfl, C8_failure_leaves_state_and_continues gT 1 1 rfl⟩
